import Mathlib

/-!
Shallow embedding of the watch-gh-actions event/state core, together with
proofs about its poller backoff, on-demand job fetch, diff engine, tree
rebuild, cursor handling and log overlay.

The primary implementation lives in `crates/ciw-core` (namespace `Ciw`
below); the legacy single-crate variant lives under `src/` (namespace `Gh`
below, used for the diff engine, which only exists there in source form).
Machine integers (`u64`, `usize`) are modelled as `Nat`, with saturation
made explicit where the Rust code saturates; `Instant` timestamps are
modelled as abstract `Nat` values threaded in as parameters.
-/

namespace WGA

/-- `RunStatus` from `app.rs` (identical in both crates). -/
inductive RunStatus where
  | completed
  | inProgress
  | queued
  | requested
  | waiting
  | pending
  | unknown
deriving DecidableEq, Repr

/-- `Conclusion` from `app.rs` (identical in both crates). -/
inductive Conclusion where
  | success
  | failure
  | cancelled
  | skipped
  | timedOut
  | actionRequired
  | startupFailure
  | stale
  | neutral
  | unknown
deriving DecidableEq, Repr

/-- The string produced for a `RunStatus` by Rust's derived `Debug` formatting. -/
def statusDebug : RunStatus → String
  | .completed => "Completed"
  | .inProgress => "InProgress"
  | .queued => "Queued"
  | .requested => "Requested"
  | .waiting => "Waiting"
  | .pending => "Pending"
  | .unknown => "Unknown"

/-- The string produced for a `Conclusion` by Rust's derived `Debug` formatting. -/
def conclusionDebug : Conclusion → String
  | .success => "Success"
  | .failure => "Failure"
  | .cancelled => "Cancelled"
  | .skipped => "Skipped"
  | .timedOut => "TimedOut"
  | .actionRequired => "ActionRequired"
  | .startupFailure => "StartupFailure"
  | .stale => "Stale"
  | .neutral => "Neutral"
  | .unknown => "Unknown"

/-- `Step` from `app.rs`: read-only leaf of the tree. Timestamps are `Nat`. -/
structure Step where
  name : String
  status : RunStatus
  conclusion : Option Conclusion
  number : Nat
  started_at : Option Nat
  completed_at : Option Nat
deriving DecidableEq, Repr

/-- `Job` from `app.rs`: `database_id` is `none` while GitHub is still
provisioning the job. -/
structure Job where
  database_id : Option Nat
  name : String
  status : RunStatus
  conclusion : Option Conclusion
  started_at : Option Nat
  completed_at : Option Nat
  url : String
  steps : List Step
deriving DecidableEq, Repr

-- ── u64 saturating arithmetic helpers ──

/-- `u64::MAX`. -/
def U64_MAX : Nat := 2 ^ 64 - 1

/-- `1u64.checked_shl(failures).unwrap_or(u64::MAX)`: the exact power of two
for shifts below the bit width, `u64::MAX` otherwise. -/
def checkedShl1 (failures : Nat) : Nat :=
  if failures < 64 then 2 ^ failures else U64_MAX

/-- `u64::saturating_mul`. -/
def satMul (a b : Nat) : Nat := min (a * b) U64_MAX

namespace Ciw

/-- `MAX_BACKOFF_SECS` from `crates/ciw-core/src/poller.rs`. -/
def MAX_BACKOFF_SECS : Nat := 300

/-- `backoff_delay` from `crates/ciw-core/src/poller.rs`:
`base_interval.saturating_mul(multiplier).clamp(1, MAX_BACKOFF_SECS)` where
`multiplier = 1u64.checked_shl(failures).unwrap_or(u64::MAX)`.
Rust's `clamp(lo, hi)` is `min (max x lo) hi`. -/
def backoff_delay (base_interval : Nat) (failures : Nat) : Nat :=
  min (max (satMul base_interval (checkedShl1 failures)) 1) MAX_BACKOFF_SECS

end Ciw

-- ── Facts about backoff_delay ──

theorem checkedShl1_le_u64max (f : Nat) : checkedShl1 f ≤ U64_MAX := by
  unfold checkedShl1 U64_MAX
  split
  · have h63 : f ≤ 63 := by omega
    have := Nat.pow_le_pow_right (by norm_num : 1 ≤ 2) h63
    have h2 : (2 : Nat) ^ 63 ≤ 2 ^ 64 - 1 := by norm_num
    omega
  · exact le_refl _

theorem checkedShl1_pos (f : Nat) : 1 ≤ checkedShl1 f := by
  unfold checkedShl1 U64_MAX
  split
  · exact Nat.one_le_two_pow
  · norm_num

theorem checkedShl1_mono {f1 f2 : Nat} (h : f1 ≤ f2) : checkedShl1 f1 ≤ checkedShl1 f2 := by
  unfold checkedShl1
  split
  · split
    · exact Nat.pow_le_pow_right (by norm_num) h
    · have h63 : f1 ≤ 63 := by omega
      have := Nat.pow_le_pow_right (by norm_num : 1 ≤ 2) h63
      unfold U64_MAX
      have h2 : (2 : Nat) ^ 63 ≤ 2 ^ 64 - 1 := by norm_num
      omega
  · split
    · omega
    · exact le_refl _

theorem backoff_delay_eq_min {base : Nat} (hbase : 1 ≤ base) (f : Nat) :
    Ciw.backoff_delay base f = min (base * 2 ^ f) 300 := by
  unfold Ciw.backoff_delay Ciw.MAX_BACKOFF_SECS satMul
  by_cases hf : f < 64
  · have hm : checkedShl1 f = 2 ^ f := by unfold checkedShl1; simp [hf]
    rw [hm]
    have hx : 1 ≤ base * 2 ^ f := Nat.one_le_iff_ne_zero.mpr
      (Nat.mul_ne_zero (by omega) (Nat.pos_iff_ne_zero.mp (Nat.pos_pow_of_pos f (by norm_num))))
    have hU : (300 : Nat) ≤ U64_MAX := by unfold U64_MAX; norm_num
    omega
  · have hm : checkedShl1 f = U64_MAX := by unfold checkedShl1; simp [hf]
    rw [hm]
    have h1 : U64_MAX ≤ base * U64_MAX := Nat.le_mul_of_pos_left _ (by omega)
    have h2 : (2 : Nat) ^ 64 ≤ 2 ^ f := Nat.pow_le_pow_right (by norm_num) (by omega)
    have h3 : 2 ^ f ≤ base * 2 ^ f := Nat.le_mul_of_pos_left _ (by omega)
    have hU : U64_MAX = 2 ^ 64 - 1 := rfl
    have hU2 : (2 : Nat) ^ 64 - 1 ≥ 300 := by norm_num
    omega

/-- C2: the claim as stated fails on `ciw-core`'s `backoff_delay`: with a base
interval of `0` (and `0` failures) the code clamps the product up to `1`,
while `min(0 * 2^0, 300) = 0`. -/
theorem claim_C2_cex :
    Ciw.backoff_delay 0 0 = 1 ∧ Ciw.backoff_delay 0 0 ≠ min (0 * 2 ^ 0) 300 := by
  decide

/-- C2 (amended): for every base interval of at least 1 second (and every
failure count), `backoff_delay(base, failures) = min(base * 2^failures, 300)`,
the multiplication and shift saturating rather than overflowing; a zero base
is additionally floored to a delay of 1 second by the `clamp(1, 300)`. -/
theorem claim_C2 (base f : Nat) (hbase : 1 ≤ base) :
    Ciw.backoff_delay base f = min (base * 2 ^ f) 300 :=
  backoff_delay_eq_min hbase f

theorem claim_C2_witness :
    1 ≤ 10 ∧ Ciw.backoff_delay 10 2 = min (10 * 2 ^ 2) 300 :=
  ⟨by decide, claim_C2 10 2 (by decide)⟩

/-- C3: the claim as stated fails: `backoff_delay(base, 0) = base` does not
hold for every base, since a base interval above `MAX_BACKOFF` is clamped:
`backoff_delay(301, 0) = 300 ≠ 301`. -/
theorem claim_C3_cex :
    Ciw.backoff_delay 301 0 = 300 ∧ Ciw.backoff_delay 301 0 ≠ 301 := by
  decide

/-- C3 (amended): `backoff_delay(base, ·)` is monotonically non-decreasing in
the failure count and never exceeds `MAX_BACKOFF` (300 s); and
`backoff_delay(base, 0) = base` for every base in `[1, 300]` (a base of 0 is
floored to 1 and a base above 300 is clamped to 300). -/
theorem claim_C3 :
    (∀ base f1 f2, f1 ≤ f2 → Ciw.backoff_delay base f1 ≤ Ciw.backoff_delay base f2) ∧
    (∀ base f, Ciw.backoff_delay base f ≤ 300) ∧
    (∀ base, 1 ≤ base → base ≤ 300 → Ciw.backoff_delay base 0 = base) := by
  refine ⟨?_, ?_, ?_⟩
  · intro base f1 f2 h
    unfold Ciw.backoff_delay Ciw.MAX_BACKOFF_SECS satMul
    have hmul : base * checkedShl1 f1 ≤ base * checkedShl1 f2 :=
      Nat.mul_le_mul_left base (checkedShl1_mono h)
    omega
  · intro base f
    unfold Ciw.backoff_delay Ciw.MAX_BACKOFF_SECS
    omega
  · intro base h1 h300
    have := backoff_delay_eq_min h1 0
    simp only [pow_zero, Nat.mul_one] at this
    omega

theorem claim_C3_witness :
    (3 : Nat) ≤ 5 ∧ Ciw.backoff_delay 10 3 ≤ Ciw.backoff_delay 10 5 ∧
    1 ≤ 10 ∧ (10 : Nat) ≤ 300 ∧ Ciw.backoff_delay 10 0 = 10 :=
  ⟨by decide, claim_C3.1 10 3 5 (by decide), by decide, by decide,
    claim_C3.2.2 10 (by decide) (by decide)⟩

-- ── String containment (substring as explicit decomposition) ──

/-- `needle` occurs as a contiguous substring of `hay`. -/
def containsStr (hay needle : String) : Prop :=
  ∃ p s : List Char, hay.data = p ++ needle.data ++ s

theorem string_data_append (a b : String) : (a ++ b).data = a.data ++ b.data := rfl

theorem containsStr_refl (a : String) : containsStr a a :=
  ⟨[], [], by simp⟩

theorem containsStr_app_left {a n : String} (b : String) (h : containsStr a n) :
    containsStr (a ++ b) n := by
  obtain ⟨p, s, hp⟩ := h
  exact ⟨p, s ++ b.data, by simp [string_data_append, hp]⟩

theorem containsStr_app_right {b n : String} (a : String) (h : containsStr b n) :
    containsStr (a ++ b) n := by
  obtain ⟨p, s, hp⟩ := h
  exact ⟨a.data ++ p, s, by simp [string_data_append, hp]⟩

namespace Ciw

/-- `WorkflowRun` from `crates/ciw-core/src/app.rs`. `jobs = none` means the
run's jobs have not been fetched yet; `some list` means fetched (possibly
empty). Timestamps are modelled as `Nat`. -/
structure WorkflowRun where
  database_id : Nat
  display_title : String
  name : String
  head_branch : String
  status : RunStatus
  conclusion : Option Conclusion
  created_at : Nat
  updated_at : Nat
  event : String
  number : Nat
  url : String
  jobs : Option (List Job)
deriving DecidableEq, Repr

/-- `AppEvent` from `crates/ciw-core/src/events.rs` (the variants the poller
and job fetch can emit; key/tick/clipboard variants are omitted as they are
never produced by the code under proof). `error` is the global auto-expiring
toast; `runError` is the sticky per-run error. -/
inductive AppEvent where
  | pollResult (runs : List WorkflowRun) (manual : Bool)
  | jobsResult (run_id : Nat) (jobs : List Job)
  | runError (run_id : Nat) (error : String)
  | error (message : String)
deriving DecidableEq, Repr

/-- One observable step of `fetch_jobs_for_run`: a call to
`executor.fetch_jobs`, a `time::sleep`, or a `tx.send`. -/
inductive PollerAction where
  | fetchJobsCall (run_id : Nat)
  | sleepSecs (secs : Nat)
  | send (ev : AppEvent)
deriving DecidableEq, Repr

/-- `fetch_jobs_for_run` from `crates/ciw-core/src/poller.rs`, as the trace of
actions it performs. The executor is modelled by the predetermined results of
its first and second `fetch_jobs` calls, the parser by `parse_jobs`. -/
def fetch_jobs_for_run (run_id : Nat) (fetch1 fetch2 : Except String String)
    (parse_jobs : String → Except String (List Job)) : List PollerAction :=
  match fetch1 with
  | .ok json =>
      .fetchJobsCall run_id ::
        (match parse_jobs json with
         | .ok jobs => [.send (.jobsResult run_id jobs)]
         | .error e => [.send (.runError run_id ("Job parse error: " ++ e))])
  | .error first_err =>
      .fetchJobsCall run_id :: .sleepSecs 2 :: .fetchJobsCall run_id ::
        (match fetch2 with
         | .ok json =>
             (match parse_jobs json with
              | .ok jobs => [.send (.jobsResult run_id jobs)]
              | .error e => [.send (.runError run_id ("Job parse error: " ++ e))])
         | .error retry_err =>
             [.send (.runError run_id
               (first_err ++ " (retry also failed: " ++ retry_err ++ ")"))])

/-- `true` exactly on `fetchJobsCall` actions. -/
def isFetchCall : PollerAction → Bool
  | .fetchJobsCall _ => true
  | _ => false

end Ciw

/-- C1: for every run id, the on-demand job fetch attempts the fetch once when
the first attempt succeeds (no sleep); when the first attempt fails it sleeps
the fixed 2-second delay and retries exactly once (two fetch calls in total);
when the retry also fails the whole trace is the two fetch calls, the sleep,
and a single per-run `RunError` for that run id whose message contains both
the first and the second failure message; and in no case is a global `Error`
event emitted. -/
theorem claim_C1 (run_id : Nat) (fetch1 fetch2 : Except String String)
    (parse_jobs : String → Except String (List Job)) :
    (∀ s, fetch1 = .ok s →
      (Ciw.fetch_jobs_for_run run_id fetch1 fetch2 parse_jobs).countP Ciw.isFetchCall = 1 ∧
      ∀ n, Ciw.PollerAction.sleepSecs n ∉ Ciw.fetch_jobs_for_run run_id fetch1 fetch2 parse_jobs) ∧
    (∀ e1 e2, fetch1 = .error e1 → fetch2 = .error e2 →
      Ciw.fetch_jobs_for_run run_id fetch1 fetch2 parse_jobs =
        [.fetchJobsCall run_id, .sleepSecs 2, .fetchJobsCall run_id,
         .send (.runError run_id (e1 ++ " (retry also failed: " ++ e2 ++ ")"))] ∧
      containsStr (e1 ++ " (retry also failed: " ++ e2 ++ ")") e1 ∧
      containsStr (e1 ++ " (retry also failed: " ++ e2 ++ ")") e2) ∧
    (∀ m, Ciw.PollerAction.send (Ciw.AppEvent.error m) ∉
      Ciw.fetch_jobs_for_run run_id fetch1 fetch2 parse_jobs) := by
  refine ⟨?_, ?_, ?_⟩
  · intro s hs
    subst hs
    unfold Ciw.fetch_jobs_for_run
    cases h : parse_jobs s <;>
      simp [h, List.countP_cons, Ciw.isFetchCall, List.countP_nil]
  · intro e1 e2 h1 h2
    subst h1; subst h2
    refine ⟨rfl, ?_, ?_⟩
    · exact containsStr_app_left _ (containsStr_app_left _
        (containsStr_app_left _ (containsStr_refl e1)))
    · exact containsStr_app_left _ (containsStr_app_right _ (containsStr_refl e2))
  · intro m
    unfold Ciw.fetch_jobs_for_run
    cases fetch1 with
    | ok json => cases h : parse_jobs json <;> simp [h]
    | error e =>
      cases fetch2 with
      | ok json => cases h : parse_jobs json <;> simp [h]
      | error e2 => simp

theorem claim_C1_witness :
    (Except.error "boom" : Except String String) = .error "boom" ∧
    (Except.error "still down" : Except String String) = .error "still down" ∧
    (Ciw.fetch_jobs_for_run 7 (.error "boom") (.error "still down") (fun _ => .ok []) =
      [.fetchJobsCall 7, .sleepSecs 2, .fetchJobsCall 7,
       .send (.runError 7 ("boom" ++ " (retry also failed: " ++ "still down" ++ ")"))] ∧
     containsStr ("boom" ++ " (retry also failed: " ++ "still down" ++ ")") "boom" ∧
     containsStr ("boom" ++ " (retry also failed: " ++ "still down" ++ ")") "still down") :=
  ⟨rfl, rfl,
    (claim_C1 7 (.error "boom") (.error "still down") (fun _ => .ok [])).2.1
      "boom" "still down" rfl rfl⟩

namespace Gh

/-- `WorkflowRun` from `src/src/app.rs` (legacy single-crate layout): jobs are
a plain vector plus a `jobs_fetched` flag rather than an `Option`. -/
structure WorkflowRun where
  database_id : Nat
  display_title : String
  name : String
  head_branch : String
  status : RunStatus
  conclusion : Option Conclusion
  created_at : Nat
  updated_at : Nat
  event : String
  number : Nat
  url : String
  jobs : List Job
  jobs_fetched : Bool
deriving DecidableEq, Repr

/-- `Notification` from `src/src/app.rs`; the `Instant` timestamp is a `Nat`. -/
structure Notification where
  run_id : Nat
  message : String
  timestamp : Nat
deriving DecidableEq, Repr

/-- The value type of the `previous_snapshot` map in `src/src/app.rs`:
`(RunStatus, Option<Conclusion>, u64 last_seen_poll)`. -/
abbrev SnapVal := RunStatus × Option Conclusion × Nat

/-- The slice of `src/src/app.rs`'s `AppState` that `detect_changes` reads and
writes: the snapshot map (`HashMap<u64, _>` modelled as an association list
with unique keys), the poll counter and the notification list. -/
structure AppState where
  previous_snapshot : List (Nat × SnapVal)
  poll_count : Nat
  notifications : List Notification
deriving DecidableEq, Repr

/-- `SNAPSHOT_EVICTION_POLLS` from `src/src/diff.rs`. -/
def SNAPSHOT_EVICTION_POLLS : Nat := 10

/-- `HashMap::get`: first (only) binding of the key. -/
def lookupSnap : List (Nat × SnapVal) → Nat → Option SnapVal
  | [], _ => none
  | (k, v) :: rest, key => if k = key then some v else lookupSnap rest key

/-- `HashMap::insert`: replace the binding in place, or append a new one. -/
def insertSnap : List (Nat × SnapVal) → Nat → SnapVal → List (Nat × SnapVal)
  | [], key, v => [(key, v)]
  | (k, v') :: rest, key, v =>
    if k = key then (key, v) :: rest else (k, v') :: insertSnap rest key v

/-- The notification text built by `detect_changes` in `src/src/diff.rs` for a
changed run, by `(status, conclusion)` as in the Rust `match`. -/
def changeMessage (run : WorkflowRun) : String :=
  match run.status, run.conclusion with
  | .completed, some .success => run.display_title ++ " completed successfully"
  | .completed, some .failure => run.display_title ++ " failed"
  | .completed, some c => run.display_title ++ " completed (" ++ conclusionDebug c ++ ")"
  | .inProgress, _ => run.display_title ++ " started"
  | _, _ => run.display_title ++ " changed to " ++ statusDebug run.status

/-- The first loop body of `detect_changes`: the notification (if any) emitted
for one run of the new poll, given the previous snapshot. -/
def notifFor (snap : List (Nat × SnapVal)) (now : Nat) (run : WorkflowRun) :
    Option Notification :=
  match lookupSnap snap run.database_id with
  | some (old_status, old_conclusion, _) =>
    if old_status ≠ run.status ∨ old_conclusion ≠ run.conclusion then
      some ⟨run.database_id, changeMessage run, now⟩
    else
      none
  | none => none

/-- `detect_changes` from `src/src/diff.rs`: bump the poll counter, emit
notifications for changed runs, merge every current run into the snapshot
with the new poll number, then evict entries not seen within
`SNAPSHOT_EVICTION_POLLS` polls (`saturating_sub` is `Nat` subtraction). -/
def detect_changes (st : AppState) (now : Nat) (new_runs : List WorkflowRun) : AppState :=
  let current_poll := st.poll_count + 1
  let notifs := st.notifications ++ new_runs.filterMap (notifFor st.previous_snapshot now)
  let merged := new_runs.foldl
    (fun m run => insertSnap m run.database_id (run.status, run.conclusion, current_poll))
    st.previous_snapshot
  let evicted := merged.filter (fun kv => current_poll - kv.2.2.2 ≤ SNAPSHOT_EVICTION_POLLS)
  { previous_snapshot := evicted, poll_count := current_poll, notifications := notifs }

end Gh

namespace Gh

theorem insertSnap_cons_self (tl : List (Nat × SnapVal)) (k : Nat) (v v' : SnapVal) :
    insertSnap ((k, v') :: tl) k v = (k, v) :: tl := by
  simp [insertSnap]

theorem insertSnap_cons_ne (tl : List (Nat × SnapVal)) (k k' : Nat) (v v' : SnapVal)
    (h : k' ≠ k) : insertSnap ((k', v') :: tl) k v = (k', v') :: insertSnap tl k v := by
  simp [insertSnap, h]

theorem lookupSnap_insertSnap_self (m : List (Nat × SnapVal)) (k : Nat) (v : SnapVal) :
    lookupSnap (insertSnap m k v) k = some v := by
  induction m with
  | nil => simp [insertSnap, lookupSnap]
  | cons hd tl ih =>
    obtain ⟨k', v'⟩ := hd
    by_cases h : k' = k
    · subst h
      rw [insertSnap_cons_self]
      simp [lookupSnap]
    · rw [insertSnap_cons_ne tl k k' v v' h]
      simp [lookupSnap, h, ih]

theorem lookupSnap_insertSnap_ne (m : List (Nat × SnapVal)) (k : Nat) (v : SnapVal)
    (key : Nat) (h : key ≠ k) :
    lookupSnap (insertSnap m k v) key = lookupSnap m key := by
  induction m with
  | nil =>
    simp [insertSnap, lookupSnap]
    omega
  | cons hd tl ih =>
    obtain ⟨k', v'⟩ := hd
    by_cases hk : k' = k
    · subst hk
      rw [insertSnap_cons_self]
      simp [lookupSnap, Ne.symm h]
    · rw [insertSnap_cons_ne tl k k' v v' hk]
      simp [lookupSnap, ih]

theorem lookupSnap_none_of_not_mem (m : List (Nat × SnapVal)) (k : Nat)
    (h : k ∉ m.map Prod.fst) : lookupSnap m k = none := by
  induction m with
  | nil => rfl
  | cons hd tl ih =>
    obtain ⟨k', v'⟩ := hd
    simp only [List.map_cons, List.mem_cons] at h
    push_neg at h
    simp [lookupSnap, Ne.symm h.1, ih h.2]

theorem lookupSnap_mem_keys (m : List (Nat × SnapVal)) (k : Nat) (v : SnapVal)
    (h : lookupSnap m k = some v) : k ∈ m.map Prod.fst := by
  by_contra hc
  rw [lookupSnap_none_of_not_mem m k hc] at h
  cases h

theorem keys_insertSnap (m : List (Nat × SnapVal)) (k : Nat) (v : SnapVal) (key : Nat) :
    key ∈ (insertSnap m k v).map Prod.fst ↔ key = k ∨ key ∈ m.map Prod.fst := by
  induction m with
  | nil => simp [insertSnap]
  | cons hd tl ih =>
    obtain ⟨k', v'⟩ := hd
    by_cases hk : k' = k
    · subst hk
      rw [insertSnap_cons_self]
      simp only [List.map_cons, List.mem_cons]
      tauto
    · rw [insertSnap_cons_ne tl k k' v v' hk]
      simp only [List.map_cons, List.mem_cons, ih]
      tauto

theorem keys_insertSnap_nodup (m : List (Nat × SnapVal)) (k : Nat) (v : SnapVal)
    (h : (m.map Prod.fst).Nodup) : ((insertSnap m k v).map Prod.fst).Nodup := by
  induction m with
  | nil => simp [insertSnap]
  | cons hd tl ih =>
    obtain ⟨k', v'⟩ := hd
    rw [List.map_cons, List.nodup_cons] at h
    by_cases hk : k' = k
    · subst hk
      rw [insertSnap_cons_self, List.map_cons, List.nodup_cons]
      exact h
    · rw [insertSnap_cons_ne tl k k' v v' hk, List.map_cons, List.nodup_cons]
      refine ⟨?_, ih h.2⟩
      intro hmem
      rw [keys_insertSnap] at hmem
      rcases hmem with rfl | hmem
      · exact hk rfl
      · exact h.1 hmem

theorem lookupSnap_filter (m : List (Nat × SnapVal)) (p : Nat × SnapVal → Bool)
    (hnd : (m.map Prod.fst).Nodup) (k : Nat) (v : SnapVal) :
    lookupSnap (m.filter p) k = some v ↔ lookupSnap m k = some v ∧ p (k, v) = true := by
  induction m with
  | nil => simp [lookupSnap]
  | cons hd tl ih =>
    obtain ⟨k', v'⟩ := hd
    rw [List.map_cons, List.nodup_cons] at hnd
    by_cases hk : k' = k
    · subst hk
      by_cases hp : p (k', v') = true
      · rw [List.filter_cons_of_pos hp]
        simp only [lookupSnap, if_pos rfl]
        constructor
        · intro hv
          cases hv
          exact ⟨rfl, hp⟩
        · intro hv
          exact hv.1
      · rw [List.filter_cons_of_neg (by simpa using hp)]
        have hnone : lookupSnap (tl.filter p) k' = none := by
          apply lookupSnap_none_of_not_mem
          intro hmem
          obtain ⟨x, hx, hfst⟩ := List.mem_map.mp hmem
          exact hnd.1 (List.mem_map.mpr ⟨x, List.mem_of_mem_filter hx, hfst⟩)
        rw [hnone]
        simp only [lookupSnap, if_pos rfl]
        constructor
        · intro hv
          cases hv
        · intro hv
          cases hv.1
          exact absurd hv.2 hp
    · by_cases hp : p (k', v') = true
      · rw [List.filter_cons_of_pos hp]
        simp only [lookupSnap, if_neg hk]
        exact ih hnd.2
      · rw [List.filter_cons_of_neg (by simpa using hp)]
        simp only [lookupSnap, if_neg hk]
        exact ih hnd.2

/-- The snapshot-merge step of `detect_changes`, named for the fold lemmas. -/
def mergeStep (cp : Nat) (m : List (Nat × SnapVal)) (run : WorkflowRun) :
    List (Nat × SnapVal) :=
  insertSnap m run.database_id (run.status, run.conclusion, cp)

theorem lookupSnap_foldl_not_mem (runs : List WorkflowRun) (m : List (Nat × SnapVal))
    (cp : Nat) (k : Nat) (h : k ∉ runs.map (fun r => r.database_id)) :
    lookupSnap (runs.foldl (mergeStep cp) m) k = lookupSnap m k := by
  induction runs generalizing m with
  | nil => rfl
  | cons r rs ih =>
    simp only [List.map_cons, List.mem_cons] at h
    push_neg at h
    rw [List.foldl_cons, ih _ h.2]
    exact lookupSnap_insertSnap_ne m r.database_id _ k h.1

theorem lookupSnap_foldl_mem (runs : List WorkflowRun) (m : List (Nat × SnapVal))
    (cp : Nat) (run : WorkflowRun)
    (hnd : (runs.map (fun r => r.database_id)).Nodup) (hmem : run ∈ runs) :
    lookupSnap (runs.foldl (mergeStep cp) m) run.database_id =
      some (run.status, run.conclusion, cp) := by
  induction runs generalizing m with
  | nil => cases hmem
  | cons r rs ih =>
    rw [List.map_cons, List.nodup_cons] at hnd
    rcases List.mem_cons.mp hmem with heq | hmem2
    · subst heq
      rw [List.foldl_cons, lookupSnap_foldl_not_mem rs _ cp _ hnd.1]
      exact lookupSnap_insertSnap_self m run.database_id _
    · rw [List.foldl_cons]
      exact ih _ hnd.2 hmem2

theorem keys_foldl_nodup (runs : List WorkflowRun) (m : List (Nat × SnapVal)) (cp : Nat)
    (h : (m.map Prod.fst).Nodup) :
    ((runs.foldl (mergeStep cp) m).map Prod.fst).Nodup := by
  induction runs generalizing m with
  | nil => exact h
  | cons r rs ih =>
    rw [List.foldl_cons]
    exact ih _ (keys_insertSnap_nodup m _ _ h)

end Gh

/-- C5: `detect_changes` appends exactly one notification per run of the new
list whose id is present in the previous snapshot with a differing
`(status, conclusion)` pair — a first sighting or an unchanged pair emits
nothing — and the message wording follows the transition: terminal success
contains "completed successfully", terminal failure contains "failed", any
other terminal conclusion contains "completed" plus the conclusion's name,
a transition into InProgress contains "started", and anything else contains
"changed to" plus the status's name. -/
theorem claim_C5 (st : Gh.AppState) (now : Nat) (new_runs : List Gh.WorkflowRun) :
    ((Gh.detect_changes st now new_runs).notifications =
        st.notifications ++ new_runs.filterMap (Gh.notifFor st.previous_snapshot now)) ∧
    (∀ run : Gh.WorkflowRun,
      (∃ n, Gh.notifFor st.previous_snapshot now run = some n) ↔
        (∃ os oc ls, Gh.lookupSnap st.previous_snapshot run.database_id = some (os, oc, ls) ∧
          (os ≠ run.status ∨ oc ≠ run.conclusion))) ∧
    (∀ (run : Gh.WorkflowRun) (n : Gh.Notification),
      Gh.notifFor st.previous_snapshot now run = some n →
        n.run_id = run.database_id ∧
        (run.status = .completed → run.conclusion = some .success →
          containsStr n.message "completed successfully") ∧
        (run.status = .completed → run.conclusion = some .failure →
          containsStr n.message "failed") ∧
        (∀ c, run.status = .completed → run.conclusion = some c →
          c ≠ .success → c ≠ .failure →
          containsStr n.message "completed" ∧ containsStr n.message (conclusionDebug c)) ∧
        (run.status = .inProgress → containsStr n.message "started") ∧
        ((run.status ≠ .completed ∨ run.conclusion = none) → run.status ≠ .inProgress →
          containsStr n.message "changed to" ∧
          containsStr n.message (statusDebug run.status))) := by
  refine ⟨rfl, ?_, ?_⟩
  · intro run
    unfold Gh.notifFor
    cases h : Gh.lookupSnap st.previous_snapshot run.database_id with
    | none => simp
    | some v =>
      obtain ⟨os, oc, ls⟩ := v
      by_cases hc : os ≠ run.status ∨ oc ≠ run.conclusion
      · simp [hc]
        exact ⟨os, oc, ⟨rfl, rfl⟩, by tauto⟩
      · simp [hc]
        push_neg at hc
        exact hc
  · intro run n hn
    have hmsg : n.message = Gh.changeMessage run ∧ n.run_id = run.database_id := by
      unfold Gh.notifFor at hn
      cases h : Gh.lookupSnap st.previous_snapshot run.database_id with
      | none => rw [h] at hn; exact absurd hn (by simp)
      | some v =>
        obtain ⟨os, oc, ls⟩ := v
        rw [h] at hn
        by_cases hc : os ≠ run.status ∨ oc ≠ run.conclusion
        · simp only [if_pos hc] at hn
          cases hn
          exact ⟨rfl, rfl⟩
        · simp only [if_neg hc] at hn
          exact absurd hn (by simp)
    refine ⟨hmsg.2, ?_, ?_, ?_, ?_, ?_⟩
    · intro hs hc
      rw [hmsg.1]
      unfold Gh.changeMessage
      rw [hs, hc]
      exact containsStr_app_right _ ⟨[' '], [], by decide⟩
    · intro hs hc
      rw [hmsg.1]
      unfold Gh.changeMessage
      rw [hs, hc]
      exact containsStr_app_right _ ⟨[' '], [], by decide⟩
    · intro c hs hc hns hnf
      rw [hmsg.1]
      unfold Gh.changeMessage
      rw [hs, hc]
      cases c
      case success => exact absurd rfl hns
      case failure => exact absurd rfl hnf
      all_goals
        exact ⟨containsStr_app_left _ (containsStr_app_left _
            (containsStr_app_right _ ⟨[' '], [' ', '('], by decide⟩)),
          containsStr_app_left _ (containsStr_app_right _ (containsStr_refl _))⟩
    · intro hs
      rw [hmsg.1]
      unfold Gh.changeMessage
      rw [hs]
      cases hcc : run.conclusion <;>
        exact containsStr_app_right _ ⟨[' '], [], by decide⟩
    · intro hor hnip
      rw [hmsg.1]
      unfold Gh.changeMessage
      have hred : (match run.status, run.conclusion with
        | .completed, some .success => run.display_title ++ " completed successfully"
        | .completed, some .failure => run.display_title ++ " failed"
        | .completed, some c => run.display_title ++ " completed (" ++ conclusionDebug c ++ ")"
        | .inProgress, _ => run.display_title ++ " started"
        | _, _ => run.display_title ++ " changed to " ++ statusDebug run.status) =
          run.display_title ++ " changed to " ++ statusDebug run.status := by
        cases hs : run.status <;> cases hc : run.conclusion <;>
          simp_all
      rw [hred]
      exact ⟨containsStr_app_left _ (containsStr_app_right _ ⟨[' '], [' '], by decide⟩),
        containsStr_app_right _ (containsStr_refl _)⟩

/-- A one-run snapshot state used to instantiate C5: run 1 was last seen
queued, and the new poll reports it in progress. -/
def c5state : Gh.AppState :=
  { previous_snapshot := [(1, (.queued, none, 1))], poll_count := 1, notifications := [] }

def c5run : Gh.WorkflowRun :=
  { database_id := 1, display_title := "CI", name := "CI", head_branch := "main"
    status := .inProgress, conclusion := none, created_at := 0, updated_at := 0
    event := "push", number := 1, url := "u", jobs := [], jobs_fetched := false }

theorem claim_C5_witness :
    Gh.notifFor c5state.previous_snapshot 5 c5run =
      some ⟨1, "CI" ++ " started", 5⟩ ∧
    containsStr (Gh.Notification.message ⟨1, "CI" ++ " started", 5⟩) "started" :=
  ⟨rfl, ((claim_C5 c5state 5 [c5run]).2.2 c5run ⟨1, "CI" ++ " started", 5⟩ rfl).2.2.2.2.1 rfl⟩

/-- C6: after `detect_changes`, every run of the new list is mapped in the
snapshot to its current `(status, conclusion)` with `last_seen` equal to the
incremented poll count; entries absent from the new list are retained (merged,
not replaced) while the incremented poll count minus their `last_seen` is at
most `SNAPSHOT_EVICTION_POLLS` (ten); and every surviving entry lags the
incremented poll count by at most ten polls (i.e. older ones are evicted).
Snapshot maps and run lists have unique keys/ids, as `HashMap` and GitHub
run ids guarantee in the source. -/
theorem claim_C6 (st : Gh.AppState) (now : Nat) (new_runs : List Gh.WorkflowRun)
    (hkeys : (st.previous_snapshot.map Prod.fst).Nodup)
    (hids : (new_runs.map (fun r => r.database_id)).Nodup) :
    (∀ run ∈ new_runs,
      Gh.lookupSnap (Gh.detect_changes st now new_runs).previous_snapshot run.database_id =
        some (run.status, run.conclusion, st.poll_count + 1)) ∧
    (∀ (id : Nat) (v : Gh.SnapVal), Gh.lookupSnap st.previous_snapshot id = some v →
      id ∉ new_runs.map (fun r => r.database_id) →
      st.poll_count + 1 - v.2.2 ≤ Gh.SNAPSHOT_EVICTION_POLLS →
      Gh.lookupSnap (Gh.detect_changes st now new_runs).previous_snapshot id = some v) ∧
    (∀ (id : Nat) (v : Gh.SnapVal),
      Gh.lookupSnap (Gh.detect_changes st now new_runs).previous_snapshot id = some v →
      st.poll_count + 1 - v.2.2 ≤ Gh.SNAPSHOT_EVICTION_POLLS) := by
  have hsnap : (Gh.detect_changes st now new_runs).previous_snapshot =
      (new_runs.foldl (Gh.mergeStep (st.poll_count + 1)) st.previous_snapshot).filter
        (fun kv => st.poll_count + 1 - kv.2.2.2 ≤ Gh.SNAPSHOT_EVICTION_POLLS) := rfl
  have hmerged : ((new_runs.foldl (Gh.mergeStep (st.poll_count + 1))
      st.previous_snapshot).map Prod.fst).Nodup :=
    Gh.keys_foldl_nodup new_runs st.previous_snapshot (st.poll_count + 1) hkeys
  refine ⟨?_, ?_, ?_⟩
  · intro run hrun
    rw [hsnap, Gh.lookupSnap_filter _ _ hmerged]
    refine ⟨Gh.lookupSnap_foldl_mem new_runs st.previous_snapshot _ run hids hrun, ?_⟩
    simp
  · intro id v hv habs hle
    rw [hsnap, Gh.lookupSnap_filter _ _ hmerged]
    refine ⟨?_, by simpa using hle⟩
    rw [Gh.lookupSnap_foldl_not_mem new_runs st.previous_snapshot _ id habs]
    exact hv
  · intro id v hv
    rw [hsnap, Gh.lookupSnap_filter _ _ hmerged] at hv
    simpa using hv.2

/-- A two-entry snapshot used to instantiate C6: run 5 was seen at poll 1 and
is absent from the new poll (poll 2), so it is retained; run 9 is new. -/
def c6state : Gh.AppState :=
  { previous_snapshot := [(5, (.queued, none, 1))], poll_count := 1, notifications := [] }

def c6run : Gh.WorkflowRun :=
  { database_id := 9, display_title := "Deploy", name := "Deploy", head_branch := "main"
    status := .inProgress, conclusion := none, created_at := 0, updated_at := 0
    event := "push", number := 2, url := "u", jobs := [], jobs_fetched := false }

theorem claim_C6_witness :
    Gh.lookupSnap (Gh.detect_changes c6state 3 [c6run]).previous_snapshot 9 =
      some (.inProgress, none, 2) ∧
    Gh.lookupSnap (Gh.detect_changes c6state 3 [c6run]).previous_snapshot 5 =
      some (.queued, none, 1) :=
  ⟨(claim_C6 c6state 3 [c6run] (by decide) (by decide)).1 c6run (by decide),
    (claim_C6 c6state 3 [c6run] (by decide) (by decide)).2.1 5 (.queued, none, 1)
      rfl (by decide) (by decide)⟩

-- ── Rust str::lines, modelled on the character list ──

/-- Split a character list at every newline; like Rust's `split('\n')` this
yields one (possibly empty) segment more than the number of newlines. -/
def splitOnNl : List Char → List (List Char)
  | [] => [[]]
  | c :: cs =>
    if c = '\n' then [] :: splitOnNl cs
    else
      match splitOnNl cs with
      | [] => [[c]]
      | s :: rest => (c :: s) :: rest

/-- Strip one trailing carriage return, as Rust's `lines` does for every
segment that was terminated by a newline. -/
def stripCRChars (l : List Char) : List Char :=
  if l.getLast? = some '\r' then l.dropLast else l

/-- Rust's `str::lines`: split on newlines, drop the final empty segment
produced by a trailing newline (or by an empty string), and strip a trailing
`\r` from every newline-terminated segment. -/
def rustLines (s : String) : List String :=
  let parts := splitOnNl s.data
  match parts.getLast? with
  | some [] => parts.dropLast.map (fun l => String.mk (stripCRChars l))
  | _ =>
    parts.dropLast.map (fun l => String.mk (stripCRChars l)) ++
      (parts.getLast?).toList.map String.mk

/-- Join lines with newlines (the generator used by the 600-line scenario). -/
def joinNl : List String → String
  | [] => ""
  | [s] => s
  | s :: rest => s ++ "\n" ++ joinNl rest

namespace Ciw

/-- `TreeLevel` from `crates/ciw-core/src/app.rs`. -/
inductive TreeLevel where
  | run
  | job
  | step
  | loading
deriving DecidableEq, Repr

/-- `TreeItem` from `crates/ciw-core/src/app.rs`: indices into the live
`runs`/`jobs`/`steps` vectors, not data. -/
structure TreeItem where
  level : TreeLevel
  run_idx : Nat
  job_idx : Option Nat
  step_idx : Option Nat
  expanded : Bool
deriving DecidableEq, Repr

/-- `FilterMode` from `crates/ciw-core/src/app.rs`. -/
inductive FilterMode where
  | all
  | activeOnly
  | currentBranch
deriving DecidableEq, Repr

/-- `LogOverlay` from `crates/ciw-core/src/app.rs`. -/
structure LogOverlay where
  title : String
  lines : List String
  scroll : Nat
  run_id : Nat
  job_id : Option Nat
deriving DecidableEq, Repr

/-- `DetailOverlay` from `crates/ciw-core/src/app.rs`. -/
structure DetailOverlay where
  title : String
  lines : List (String × String)
deriving DecidableEq, Repr

/-- `ConfirmAction` from `crates/ciw-core/src/app.rs`. -/
inductive ConfirmAction where
  | cancelRun (id : Nat)
  | deleteRun (id : Nat)
deriving DecidableEq, Repr

/-- `ConfirmOverlay` from `crates/ciw-core/src/app.rs`. -/
structure ConfirmOverlay where
  title : String
  message : String
  action : ConfirmAction
deriving DecidableEq, Repr

/-- `ActiveOverlay` from `crates/ciw-core/src/app.rs`: at most one overlay at
a time, by construction. -/
inductive ActiveOverlay where
  | none
  | log (o : LogOverlay)
  | detail (o : DetailOverlay)
  | confirm (o : ConfirmOverlay)
deriving DecidableEq, Repr

/-- `AppConfig` from `crates/ciw-core/src/app.rs`. -/
structure AppConfig where
  repo : String
  branch : Option String
  limit : Nat
  workflow_filter : Option String
deriving DecidableEq, Repr

/-- The slice of `AppState` from `crates/ciw-core/src/app.rs` read and
written by the tree, cursor and overlay operations under proof. `HashSet`s
are association-free lists queried with `contains`. The purely temporal
fields (`Instant` timestamps, caches pruned by wall-clock TTL, counters not
touched by these operations) are omitted. -/
structure AppState where
  config : AppConfig
  runs : List WorkflowRun
  tree_items : List TreeItem
  cursor : Nat
  expanded_runs : List Nat
  expanded_jobs : List (Nat × Nat)
  filter : FilterMode
  overlay : ActiveOverlay
deriving DecidableEq, Repr

/-- `filter_predicate` from `crates/ciw-core/src/app.rs`. -/
def filter_predicate (st : AppState) (r : WorkflowRun) : Bool :=
  match st.filter with
  | .all => true
  | .activeOnly =>
    match r.status with
    | .inProgress | .queued | .waiting | .pending | .requested => true
    | _ => false
  | .currentBranch =>
    match st.config.branch with
    | some b => r.head_branch == b
    | none => false

/-- `filtered_runs_indices` from `crates/ciw-core/src/app.rs`:
`(original index, run)` pairs of the runs passing the active filter. -/
def filtered_runs_indices (st : AppState) : List (Nat × WorkflowRun) :=
  st.runs.enum.filter (fun p => filter_predicate st p.2)

/-- The synthetic `Loading` placeholder row pushed by `rebuild_tree`. -/
def loadingItem (run_idx : Nat) : TreeItem :=
  ⟨.loading, run_idx, none, none, false⟩

/-- The step rows pushed by `rebuild_tree` for one expanded job. -/
def stepRows (run_idx job_idx : Nat) (steps : List Step) : List TreeItem :=
  (List.range steps.length).map fun step_idx =>
    ⟨.step, run_idx, some job_idx, some step_idx, false⟩

/-- The job (and step) rows pushed by `rebuild_tree` for one expanded run:
jobs whose `database_id` is still `None` are skipped (`continue`). -/
def jobRows (st : AppState) (run_idx run_id : Nat) (jobs : List Job) : List TreeItem :=
  jobs.enum.flatMap fun p =>
    match p.2.database_id with
    | none => []
    | some job_db_id =>
      let job_expanded := st.expanded_jobs.contains (run_id, job_db_id)
      ⟨.job, run_idx, some p.1, none, job_expanded⟩ ::
        (if job_expanded then stepRows run_idx p.1 p.2.steps else [])

/-- The rows pushed by `rebuild_tree` for one filtered run: the run row, then
(when expanded) the job rows, a `Loading` row when the jobs are unfetched, or
a `Loading` row when the fetched job list is non-empty but produced no rows. -/
def runRows (st : AppState) (run_idx : Nat) (run : WorkflowRun) : List TreeItem :=
  let run_id := run.database_id
  let run_expanded := st.expanded_runs.contains run_id
  ⟨.run, run_idx, none, none, run_expanded⟩ ::
    (if run_expanded then
      match run.jobs with
      | some jobs =>
        let jrows := jobRows st run_idx run_id jobs
        if jrows = [] ∧ jobs ≠ [] then [loadingItem run_idx] else jrows
      | none => [loadingItem run_idx]
    else [])

/-- `rebuild_tree` from `crates/ciw-core/src/app.rs`: recompute `tree_items`
from the filtered runs and expansion sets, then clamp the cursor into
`[0, len)` (or to 0 when the tree is empty). -/
def rebuild_tree (st : AppState) : AppState :=
  let items := (filtered_runs_indices st).flatMap fun p => runRows st p.1 p.2
  { st with
    tree_items := items
    cursor :=
      if st.cursor ≥ items.length ∧ items ≠ [] then items.length - 1
      else if items = [] then 0
      else st.cursor }

/-- `ResolvedItem` from `crates/ciw-core/src/app.rs` (owned values instead of
borrows). -/
inductive ResolvedItem where
  | run (r : WorkflowRun)
  | job (j : Job)
  | step (s : Step)
deriving DecidableEq, Repr

/-- `resolve_item` from `crates/ciw-core/src/app.rs`: every `?` on a failed
`get`/`as_ref` becomes an explicit `none`. -/
def resolve_item (st : AppState) (item : TreeItem) : Option ResolvedItem :=
  match st.runs.get? item.run_idx with
  | none => none
  | some run =>
    match item.level with
    | .run => some (.run run)
    | .job =>
      match run.jobs with
      | none => none
      | some jobs =>
        match item.job_idx with
        | none => none
        | some ji =>
          match jobs.get? ji with
          | none => none
          | some job => some (.job job)
    | .step =>
      match run.jobs with
      | none => none
      | some jobs =>
        match item.job_idx with
        | none => none
        | some ji =>
          match jobs.get? ji with
          | none => none
          | some job =>
            match item.step_idx with
            | none => none
            | some si =>
              match job.steps.get? si with
              | none => none
              | some s => some (.step s)
    | .loading => none

/-- `move_cursor_up` from `crates/ciw-core/src/app.rs`. -/
def move_cursor_up (st : AppState) : AppState :=
  if st.cursor > 0 then { st with cursor := st.cursor - 1 } else st

/-- `move_cursor_down` from `crates/ciw-core/src/app.rs`. -/
def move_cursor_down (st : AppState) : AppState :=
  if st.tree_items ≠ [] ∧ st.cursor < st.tree_items.length - 1 then
    { st with cursor := st.cursor + 1 }
  else st

/-- `LOG_MAX_LINES` from `crates/ciw-core/src/app.rs`. -/
def LOG_MAX_LINES : Nat := 500

/-- `open_log_overlay` from `crates/ciw-core/src/app.rs`: split the content
into lines, keep at most the last `LOG_MAX_LINES`, and replace the overlay. -/
def open_log_overlay (st : AppState) (title : String) (content : String)
    (run_id : Nat) (job_id : Option Nat) : AppState :=
  let lines := rustLines content
  let lines :=
    if lines.length > LOG_MAX_LINES then lines.drop (lines.length - LOG_MAX_LINES)
    else lines
  { st with overlay := .log ⟨title, lines, 0, run_id, job_id⟩ }

/-- `log_overlay_ref` from `crates/ciw-core/src/app.rs`. -/
def log_overlay_ref (st : AppState) : Option LogOverlay :=
  match st.overlay with
  | .log o => some o
  | _ => none

end Ciw

theorem clampCursorBounds (c : Nat) (items : List Ciw.TreeItem) :
    (items = [] →
      (if c ≥ items.length ∧ items ≠ [] then items.length - 1
       else if items = [] then 0 else c) = 0) ∧
    (items ≠ [] →
      (if c ≥ items.length ∧ items ≠ [] then items.length - 1
       else if items = [] then 0 else c) < items.length) := by
  constructor
  · intro h
    simp [h]
  · intro h
    have hlen : 0 < items.length := List.length_pos.mpr h
    by_cases h1 : c ≥ items.length
    · rw [if_pos ⟨h1, h⟩]
      omega
    · rw [if_neg (fun hc => h1 hc.1), if_neg h]
      omega

/-- C8: after every `rebuild_tree` the cursor is `0` on an empty tree and
strictly below `tree_items.len()` otherwise; and `move_cursor_up` and
`move_cursor_down` preserve this invariant from any state satisfying it
(including the empty tree, where they leave the cursor at 0). -/
theorem claim_C8 :
    (∀ st : Ciw.AppState,
      ((Ciw.rebuild_tree st).tree_items = [] → (Ciw.rebuild_tree st).cursor = 0) ∧
      ((Ciw.rebuild_tree st).tree_items ≠ [] →
        (Ciw.rebuild_tree st).cursor < (Ciw.rebuild_tree st).tree_items.length)) ∧
    (∀ st : Ciw.AppState,
      (st.tree_items = [] → st.cursor = 0) →
      (st.tree_items ≠ [] → st.cursor < st.tree_items.length) →
      (((Ciw.move_cursor_up st).tree_items = [] → (Ciw.move_cursor_up st).cursor = 0) ∧
       ((Ciw.move_cursor_up st).tree_items ≠ [] →
         (Ciw.move_cursor_up st).cursor < (Ciw.move_cursor_up st).tree_items.length) ∧
       ((Ciw.move_cursor_down st).tree_items = [] → (Ciw.move_cursor_down st).cursor = 0) ∧
       ((Ciw.move_cursor_down st).tree_items ≠ [] →
         (Ciw.move_cursor_down st).cursor < (Ciw.move_cursor_down st).tree_items.length))) := by
  constructor
  · intro st
    exact clampCursorBounds st.cursor
      ((Ciw.filtered_runs_indices st).flatMap fun p => Ciw.runRows st p.1 p.2)
  · intro st hempty hlt
    have hup_tree : (Ciw.move_cursor_up st).tree_items = st.tree_items := by
      unfold Ciw.move_cursor_up
      split_ifs <;> rfl
    have hup_cursor : (Ciw.move_cursor_up st).cursor =
        if st.cursor > 0 then st.cursor - 1 else st.cursor := by
      unfold Ciw.move_cursor_up
      split_ifs <;> rfl
    have hdn_tree : (Ciw.move_cursor_down st).tree_items = st.tree_items := by
      unfold Ciw.move_cursor_down
      split_ifs <;> rfl
    have hdn_cursor : (Ciw.move_cursor_down st).cursor =
        if st.tree_items ≠ [] ∧ st.cursor < st.tree_items.length - 1 then st.cursor + 1
        else st.cursor := by
      unfold Ciw.move_cursor_down
      split_ifs <;> rfl
    refine ⟨?_, ?_, ?_, ?_⟩
    · intro h
      rw [hup_tree] at h
      rw [hup_cursor]
      have := hempty h
      split_ifs <;> omega
    · intro h
      rw [hup_tree] at h
      rw [hup_cursor, hup_tree]
      have := hlt h
      split_ifs <;> omega
    · intro h
      rw [hdn_tree] at h
      rw [hdn_cursor]
      have := hempty h
      split_ifs with hc
      · exact absurd h hc.1
      · omega
    · intro h
      rw [hdn_tree] at h
      rw [hdn_cursor, hdn_tree]
      have := hlt h
      split_ifs with hc
      · omega
      · omega

/-- A one-row tree state with the cursor at 0, instantiating C8's moves. -/
def c8state : Ciw.AppState :=
  { config := ⟨"r", Option.none, 20, Option.none⟩, runs := [],
    tree_items := [⟨.run, 0, Option.none, Option.none, false⟩], cursor := 0,
    expanded_runs := [], expanded_jobs := [], filter := .all, overlay := .none }

theorem claim_C8_witness :
    ((Ciw.move_cursor_down c8state).tree_items ≠ [] →
      (Ciw.move_cursor_down c8state).cursor <
        (Ciw.move_cursor_down c8state).tree_items.length) ∧
    ((Ciw.move_cursor_up c8state).tree_items = [] →
      (Ciw.move_cursor_up c8state).cursor = 0) :=
  ⟨(claim_C8.2 c8state (by decide) (by decide)).2.2.2,
    (claim_C8.2 c8state (by decide) (by decide)).1⟩

/-- C10: `resolve_item` is total on arbitrary (possibly stale) `TreeItem`s:
it always returns an `Option` (never panics), returns `None` for a `Loading`
item, for an out-of-range `run_idx`, for a job/step item whose run has no
fetched jobs or no `job_idx` or an out-of-range `job_idx`, and for a step
item with no `step_idx` or an out-of-range `step_idx`. -/
theorem claim_C10 (st : Ciw.AppState) (item : Ciw.TreeItem) :
    (Ciw.resolve_item st item = none ∨ ∃ r, Ciw.resolve_item st item = some r) ∧
    (item.level = .loading → Ciw.resolve_item st item = none) ∧
    (st.runs.length ≤ item.run_idx → Ciw.resolve_item st item = none) ∧
    (∀ run, st.runs.get? item.run_idx = some run →
      ((item.level = .job ∨ item.level = .step) →
        ((run.jobs = none → Ciw.resolve_item st item = none) ∧
         (item.job_idx = none → Ciw.resolve_item st item = none) ∧
         (∀ js ji, run.jobs = some js → item.job_idx = some ji → js.length ≤ ji →
           Ciw.resolve_item st item = none))) ∧
      (item.level = .step → ∀ js ji job, run.jobs = some js → item.job_idx = some ji →
        js.get? ji = some job →
        ((item.step_idx = none → Ciw.resolve_item st item = none) ∧
         (∀ si, item.step_idx = some si → job.steps.length ≤ si →
           Ciw.resolve_item st item = none)))) := by
  refine ⟨?_, ?_, ?_, ?_⟩
  · cases h : Ciw.resolve_item st item with
    | none => exact Or.inl rfl
    | some r => exact Or.inr ⟨r, rfl⟩
  · intro hlvl
    unfold Ciw.resolve_item
    cases h : st.runs.get? item.run_idx <;> simp [hlvl]
  · intro hlen
    unfold Ciw.resolve_item
    rw [List.get?_eq_none.mpr hlen]
  · intro run hget
    constructor
    · intro hlvl
      refine ⟨?_, ?_, ?_⟩
      · intro hjobs
        unfold Ciw.resolve_item
        rw [hget]
        rcases hlvl with h | h <;> simp [h, hjobs]
      · intro hjidx
        unfold Ciw.resolve_item
        rw [hget]
        rcases hlvl with h | h <;> simp [h, hjidx] <;>
          cases hjobs : run.jobs <;> simp
      · intro js ji hjobs hjidx hlen
        unfold Ciw.resolve_item
        rw [hget]
        rcases hlvl with h | h <;>
          simp [h, hjobs, hjidx, List.getElem?_eq_none hlen]
    · intro hlvl js ji job hjobs hjidx hjget
      rw [List.get?_eq_getElem?] at hjget
      refine ⟨?_, ?_⟩
      · intro hsidx
        unfold Ciw.resolve_item
        rw [hget]
        simp [hlvl, hjobs, hjidx, hjget, hsidx]
      · intro si hsidx hslen
        unfold Ciw.resolve_item
        rw [hget]
        simp [hlvl, hjobs, hjidx, hjget, hsidx, List.getElem?_eq_none hslen]

/-- An empty state and a stale item pointing far out of range. -/
def c10state : Ciw.AppState :=
  { config := ⟨"r", Option.none, 20, Option.none⟩, runs := [], tree_items := [],
    cursor := 0, expanded_runs := [], expanded_jobs := [], filter := .all,
    overlay := .none }

def c10item : Ciw.TreeItem := ⟨.job, 99, some 4, Option.none, false⟩

theorem claim_C10_witness :
    Ciw.resolve_item c10state c10item = none ∧
    Ciw.resolve_item c10state ⟨.loading, 0, Option.none, Option.none, false⟩ = none :=
  ⟨(claim_C10 c10state c10item).2.2.1 (by decide),
    (claim_C10 c10state ⟨.loading, 0, Option.none, Option.none, false⟩).2.1 rfl⟩


theorem strmk (s : String) : String.mk s.data = s := by cases s; rfl

-- facts about splitOnNl, rustLines and joinNl used by the log-overlay claim

theorem string_ne_nil_data (s : String) (h : s ≠ "") : s.data ≠ [] := by
  intro hd
  exact h (by cases s; simp_all)

theorem splitOnNl_cons (c : Char) (cs : List Char) :
    splitOnNl (c :: cs) =
      if c = '\n' then [] :: splitOnNl cs
      else
        match splitOnNl cs with
        | [] => [[c]]
        | s :: rest => (c :: s) :: rest := by
  rfl

theorem splitOnNl_ne_nil (l : List Char) : splitOnNl l ≠ [] := by
  cases l with
  | nil => simp [splitOnNl]
  | cons c cs =>
    by_cases hc : c = '\n'
    · simp [splitOnNl, hc]
    · cases h : splitOnNl cs <;> simp [splitOnNl, hc, h]

theorem splitOnNl_no_newline (l : List Char) (h : ∀ c ∈ l, c ≠ '\n') :
    splitOnNl l = [l] := by
  induction l with
  | nil => rfl
  | cons c cs ih =>
    rw [splitOnNl_cons, if_neg (h c (by simp)), ih (fun x hx => h x (by simp [hx]))]

theorem splitOnNl_append (a b : List Char) (h : ∀ c ∈ a, c ≠ '\n') :
    splitOnNl (a ++ '\n' :: b) = a :: splitOnNl b := by
  induction a with
  | nil =>
    simp [splitOnNl]
  | cons c cs ih =>
    have hc : c ≠ '\n' := h c (by simp)
    rw [List.cons_append, splitOnNl_cons, if_neg hc,
      ih (fun x hx => h x (by simp [hx]))]

theorem joinNl_cons_cons (p q : String) (rest : List String) :
    joinNl (p :: q :: rest) = p ++ "\n" ++ joinNl (q :: rest) := rfl

theorem joinNl_data (p q : String) (rest : List String) :
    (joinNl (p :: q :: rest)).data = p.data ++ '\n' :: (joinNl (q :: rest)).data := by
  rw [joinNl_cons_cons, string_data_append, string_data_append]
  have hnl : ("\n").data = ['\n'] := rfl
  rw [hnl, List.append_assoc]
  rfl

theorem rustLines_single (p : String) (hp : p ≠ "")
    (hnl : ∀ c ∈ p.data, c ≠ '\n') :
    rustLines (joinNl [p]) = [p] := by
  show rustLines p = [p]
  unfold rustLines
  dsimp only
  rw [splitOnNl_no_newline p.data hnl]
  cases hd : p.data with
  | nil => exact absurd hd (string_ne_nil_data p hp)
  | cons c cs =>
    simp only [List.getLast?_singleton, List.dropLast_single, List.map_nil,
      Option.toList_some, List.map_cons, List.map_nil, List.nil_append]
    rw [← hd, strmk]

theorem rustLines_cons (p : String) (ps : List String) (hps : ps ≠ [])
    (hnl : ∀ c ∈ p.data, c ≠ '\n') (hcr : stripCRChars p.data = p.data) :
    rustLines (joinNl (p :: ps)) = p :: rustLines (joinNl ps) := by
  obtain ⟨q, rest, rfl⟩ : ∃ q rest, ps = q :: rest := by
    cases ps with
    | nil => exact absurd rfl hps
    | cons q rest => exact ⟨q, rest, rfl⟩
  unfold rustLines
  dsimp only
  rw [joinNl_data, splitOnNl_append _ _ hnl]
  obtain ⟨r0, rs, hr⟩ : ∃ r0 rs, splitOnNl (joinNl (q :: rest)).data = r0 :: rs := by
    cases h : splitOnNl (joinNl (q :: rest)).data with
    | nil => exact absurd h (splitOnNl_ne_nil _)
    | cons r0 rs => exact ⟨r0, rs, rfl⟩
  rw [hr, List.getLast?_cons_cons]
  cases hlast : (r0 :: rs).getLast? with
  | none => simp at hlast
  | some last =>
    cases last with
    | nil =>
      simp only [List.dropLast_cons₂, List.map_cons, hcr, strmk]
    | cons lc lcs =>
      simp only [List.dropLast_cons₂, List.map_cons, hcr, strmk, List.cons_append]


def goodLine (s : String) : Bool :=
  decide (s ≠ "") && s.data.all (fun c => decide (c ≠ '\n')) &&
    decide (stripCRChars s.data = s.data)

theorem rustLines_joinNl (parts : List String) (hne : parts ≠ [])
    (hgood : parts.all goodLine = true) :
    rustLines (joinNl parts) = parts := by
  induction parts with
  | nil => exact absurd rfl hne
  | cons p ps ih =>
    rw [List.all_cons, Bool.and_eq_true] at hgood
    have hg := hgood.1
    simp only [goodLine, Bool.and_eq_true, decide_eq_true_eq, List.all_eq_true] at hg
    cases ps with
    | nil => exact rustLines_single p hg.1.1 (fun c hc => hg.1.2 c hc)
    | cons q rest =>
      rw [rustLines_cons p (q :: rest) (by simp) (fun c hc => hg.1.2 c hc) hg.2,
        ih (by simp) hgood.2]

def c9lines : List String := (List.range 600).map fun i => "line " ++ toString i

set_option maxRecDepth 8000 in
/-- C9: `open_log_overlay` stores at most `LOG_MAX_LINES` (500) lines and
keeps the tail of the split content; for the generated 600-line input the
stored overlay holds exactly the last 500 lines and its first retained line
is line 100 (0-indexed) of the original sequence. -/
theorem claim_C9 :
    (∀ (st : Ciw.AppState) (title content : String) (run_id : Nat) (job_id : Option Nat),
      ∃ o, Ciw.log_overlay_ref (Ciw.open_log_overlay st title content run_id job_id) =
          some o ∧
        o.lines.length ≤ Ciw.LOG_MAX_LINES ∧
        o.lines = (rustLines content).drop ((rustLines content).length - Ciw.LOG_MAX_LINES)) ∧
    (∀ (st : Ciw.AppState) (title : String) (run_id : Nat) (job_id : Option Nat),
      ∃ o, Ciw.log_overlay_ref
          (Ciw.open_log_overlay st title (joinNl c9lines) run_id job_id) = some o ∧
        o.lines.length = Ciw.LOG_MAX_LINES ∧
        o.lines.get? 0 = some "line 100") := by
  have hyp : ∀ (st : Ciw.AppState) (title content : String) (run_id : Nat)
      (job_id : Option Nat),
      ∃ o, Ciw.log_overlay_ref (Ciw.open_log_overlay st title content run_id job_id) =
          some o ∧
        o.lines.length ≤ Ciw.LOG_MAX_LINES ∧
        o.lines = (rustLines content).drop ((rustLines content).length - Ciw.LOG_MAX_LINES) := by
    intro st title content rid jid
    by_cases h : (rustLines content).length > Ciw.LOG_MAX_LINES
    · refine ⟨⟨title, (rustLines content).drop
          ((rustLines content).length - Ciw.LOG_MAX_LINES), 0, rid, jid⟩, ?_, ?_, rfl⟩
      · unfold Ciw.open_log_overlay Ciw.log_overlay_ref
        dsimp only
        rw [if_pos h]
      · rw [List.length_drop]
        omega
    · refine ⟨⟨title, rustLines content, 0, rid, jid⟩, ?_, ?_, ?_⟩
      · unfold Ciw.open_log_overlay Ciw.log_overlay_ref
        dsimp only
        rw [if_neg h]
      · dsimp only
        omega
      · have hz : (rustLines content).length - Ciw.LOG_MAX_LINES = 0 := by omega
        rw [hz, List.drop_zero]
  refine ⟨hyp, ?_⟩
  intro st title rid jid
  have hlines : rustLines (joinNl c9lines) = c9lines :=
    rustLines_joinNl c9lines (by simp [c9lines]) (by decide)
  have hlen : c9lines.length = 600 := by simp [c9lines]
  obtain ⟨o, ho, holen, holines⟩ := hyp st title (joinNl c9lines) rid jid
  refine ⟨o, ho, ?_, ?_⟩
  · rw [holines, hlines, List.length_drop, hlen]
    rfl
  · rw [holines, hlines, hlen]
    show (c9lines.drop (600 - Ciw.LOG_MAX_LINES)).get? 0 = some "line 100"
    have h100 : 600 - Ciw.LOG_MAX_LINES = 100 := rfl
    rw [h100, List.get?_drop]
    show c9lines.get? 100 = some "line 100"
    unfold c9lines
    rw [List.get?_map, List.get?_range (by norm_num : (100 : Nat) < 600)]
    rfl


theorem resolve_item_rebuild (st : Ciw.AppState) (item : Ciw.TreeItem) :
    Ciw.resolve_item (Ciw.rebuild_tree st) item = Ciw.resolve_item st item := rfl

theorem mem_stepRows (i j : Nat) (steps : List Step) (item : Ciw.TreeItem) :
    item ∈ Ciw.stepRows i j steps ↔
      ∃ s, s < steps.length ∧ item = ⟨.step, i, some j, some s, false⟩ := by
  simp [Ciw.stepRows, List.mem_map, List.mem_range]
  tauto

theorem mem_jobRows (st : Ciw.AppState) (i rid : Nat) (jobs : List Job)
    (item : Ciw.TreeItem) (h : item ∈ Ciw.jobRows st i rid jobs) :
    ∃ jdx job jid, jobs.get? jdx = some job ∧ job.database_id = some jid ∧
      (item = ⟨.job, i, some jdx, Option.none,
          st.expanded_jobs.contains (rid, jid)⟩ ∨
        item ∈ Ciw.stepRows i jdx job.steps) := by
  unfold Ciw.jobRows at h
  obtain ⟨p, hp, hitem⟩ := List.mem_flatMap.mp h
  obtain ⟨jdx, job⟩ := p
  have hget : jobs.get? jdx = some job := List.mem_enum_iff_get?.mp hp
  cases hjid : job.database_id with
  | none =>
    rw [hjid] at hitem
    cases hitem
  | some jid =>
    rw [hjid] at hitem
    refine ⟨jdx, job, jid, hget, hjid, ?_⟩
    dsimp only at hitem
    rcases List.mem_cons.mp hitem with rfl | hstep
    · exact Or.inl rfl
    · by_cases hb : st.expanded_jobs.contains (rid, jid) = true
      · rw [if_pos hb] at hstep
        exact Or.inr hstep
      · rw [if_neg hb] at hstep
        cases hstep

theorem jobRows_eq_nil_iff (st : Ciw.AppState) (i rid : Nat) (jobs : List Job) :
    Ciw.jobRows st i rid jobs = [] ↔ ∀ j ∈ jobs, j.database_id = Option.none := by
  unfold Ciw.jobRows
  rw [List.flatMap_eq_nil_iff]
  constructor
  · intro h j hj
    obtain ⟨jdx, hjdx⟩ := List.mem_iff_get?.mp hj
    have hpe : (jdx, j) ∈ jobs.enum := List.mem_enum_iff_get?.mpr hjdx
    have := h (jdx, j) hpe
    cases hjid : j.database_id with
    | none => rfl
    | some jid =>
      rw [hjid] at this
      simp at this
  · intro h p hp
    obtain ⟨jdx, job⟩ := p
    have hget : jobs.get? jdx = some job := List.mem_enum_iff_get?.mp hp
    have hj : job ∈ jobs := List.mem_iff_get?.mpr ⟨jdx, hget⟩
    rw [h job hj]

theorem mem_runRows_run_idx (st : Ciw.AppState) (i : Nat) (run : Ciw.WorkflowRun)
    (item : Ciw.TreeItem) (h : item ∈ Ciw.runRows st i run) : item.run_idx = i := by
  unfold Ciw.runRows at h
  dsimp only at h
  rcases List.mem_cons.mp h with rfl | htail
  · rfl
  · by_cases hb : st.expanded_runs.contains run.database_id = true
    · rw [if_pos hb] at htail
      cases hjobs : run.jobs with
      | none =>
        rw [hjobs] at htail
        rcases List.mem_singleton.mp htail with rfl
        rfl
      | some jobs =>
        rw [hjobs] at htail
        dsimp only at htail
        by_cases hc : Ciw.jobRows st i run.database_id jobs = [] ∧ jobs ≠ []
        · rw [if_pos hc] at htail
          rcases List.mem_singleton.mp htail with rfl
          rfl
        · rw [if_neg hc] at htail
          obtain ⟨jdx, job, jid, _, _, hcase⟩ :=
            mem_jobRows st i run.database_id jobs item htail
          rcases hcase with rfl | hstep
          · rfl
          · obtain ⟨s, _, rfl⟩ := (mem_stepRows i jdx job.steps item).mp hstep
            rfl
    · rw [if_neg hb] at htail
      cases htail


/-- C7: every `TreeItem` produced by `rebuild_tree` (other than the synthetic
`Loading` rows) has live indices: `resolve_item` on the rebuilt state returns
`Some` for it — `run_idx` indexes into `runs`, `job_idx` into that run's
fetched job list and `step_idx` into that job's step list. -/
theorem claim_C7 (st : Ciw.AppState) (item : Ciw.TreeItem)
    (hmem : item ∈ (Ciw.rebuild_tree st).tree_items)
    (hlvl : item.level ≠ .loading) :
    (Ciw.resolve_item (Ciw.rebuild_tree st) item).isSome = true := by
  rw [resolve_item_rebuild]
  have htree : (Ciw.rebuild_tree st).tree_items =
      (Ciw.filtered_runs_indices st).flatMap fun p => Ciw.runRows st p.1 p.2 := rfl
  rw [htree] at hmem
  obtain ⟨p, hp, hitem⟩ := List.mem_flatMap.mp hmem
  obtain ⟨i, run⟩ := p
  have hget : st.runs.get? i = some run :=
    List.mem_enum_iff_get?.mp (List.mem_of_mem_filter hp)
  unfold Ciw.runRows at hitem
  dsimp only at hitem
  rcases List.mem_cons.mp hitem with rfl | htail
  · unfold Ciw.resolve_item
    rw [hget]
    rfl
  · by_cases hb : st.expanded_runs.contains run.database_id = true
    · rw [if_pos hb] at htail
      cases hjobs : run.jobs with
      | none =>
        rw [hjobs] at htail
        rcases List.mem_singleton.mp htail with rfl
        exact absurd rfl hlvl
      | some jobs =>
        rw [hjobs] at htail
        dsimp only at htail
        by_cases hc : Ciw.jobRows st i run.database_id jobs = [] ∧ jobs ≠ []
        · rw [if_pos hc] at htail
          rcases List.mem_singleton.mp htail with rfl
          exact absurd rfl hlvl
        · rw [if_neg hc] at htail
          obtain ⟨jdx, job, jid, hjget, hjid, hcase⟩ :=
            mem_jobRows st i run.database_id jobs item htail
          rw [List.get?_eq_getElem?] at hjget
          rcases hcase with rfl | hstep
          · unfold Ciw.resolve_item
            rw [hget]
            simp [hjobs, hjget]
          · obtain ⟨s, hs, rfl⟩ := (mem_stepRows i jdx job.steps item).mp hstep
            unfold Ciw.resolve_item
            rw [hget]
            simp [hjobs, hjget, List.getElem?_eq_getElem hs]
    · rw [if_neg hb] at htail
      cases htail


theorem flatMap_block_infix {α β : Type} (f : α → List β) (l : List α) (p : α)
    (hp : p ∈ l) : f p <:+: l.flatMap f := by
  induction l with
  | nil => cases hp
  | cons a as ih =>
    rcases List.mem_cons.mp hp with rfl | hmem
    · exact ⟨[], as.flatMap f, by simp⟩
    · obtain ⟨s, t, hst⟩ := ih hmem
      exact ⟨f a ++ s, t, by simp [← hst, List.append_assoc]⟩

/-- C4 (amended): after `rebuild_tree`, for a run that passes the filter and
is in the expansion set, a `Loading` placeholder sits directly under the
run's row exactly when the jobs are not yet fetched, or the fetched job list
is non-empty and every job's remote id is still absent. (A fetched-empty job
list produces no placeholder — see the counterexample.) -/
theorem claim_C4 (st : Ciw.AppState) (i : Nat) (run : Ciw.WorkflowRun)
    (hget : st.runs.get? i = some run)
    (hpred : Ciw.filter_predicate st run = true)
    (hexp : st.expanded_runs.contains run.database_id = true) :
    (Ciw.loadingItem i ∈ (Ciw.rebuild_tree st).tree_items ↔
      (run.jobs = Option.none ∨
        ∃ js, run.jobs = some js ∧ js ≠ [] ∧ ∀ j ∈ js, j.database_id = Option.none)) ∧
    ((run.jobs = Option.none ∨
        ∃ js, run.jobs = some js ∧ js ≠ [] ∧ ∀ j ∈ js, j.database_id = Option.none) →
      [⟨.run, i, Option.none, Option.none, true⟩, Ciw.loadingItem i] <:+:
        (Ciw.rebuild_tree st).tree_items) := by
  have htree : (Ciw.rebuild_tree st).tree_items =
      (Ciw.filtered_runs_indices st).flatMap fun p => Ciw.runRows st p.1 p.2 := rfl
  have hfil : (i, run) ∈ Ciw.filtered_runs_indices st :=
    List.mem_filter.mpr ⟨List.mem_enum_iff_get?.mpr hget, by simpa using hpred⟩
  have hrows : (run.jobs = Option.none ∨
      ∃ js, run.jobs = some js ∧ js ≠ [] ∧ ∀ j ∈ js, j.database_id = Option.none) →
      Ciw.runRows st i run =
        [⟨.run, i, Option.none, Option.none, true⟩, Ciw.loadingItem i] := by
    intro hcond
    unfold Ciw.runRows
    dsimp only
    rw [hexp, if_pos rfl]
    rcases hcond with hnone | ⟨js, hjs, hne, hall⟩
    · rw [hnone]
    · rw [hjs]
      dsimp only
      rw [if_pos ⟨(jobRows_eq_nil_iff st i run.database_id js).mpr hall, hne⟩]
  constructor
  · constructor
    · intro hmem
      rw [htree] at hmem
      obtain ⟨p2, hp2, hitem2⟩ := List.mem_flatMap.mp hmem
      obtain ⟨i2, run2⟩ := p2
      have hi : i = i2 := mem_runRows_run_idx st i2 run2 (Ciw.loadingItem i) hitem2
      subst hi
      have hrun2 : st.runs.get? i = some run2 :=
        List.mem_enum_iff_get?.mp (List.mem_of_mem_filter hp2)
      rw [hget] at hrun2
      cases hrun2
      unfold Ciw.runRows at hitem2
      dsimp only at hitem2
      rw [hexp, if_pos rfl] at hitem2
      rcases List.mem_cons.mp hitem2 with heq | htail
      · exact absurd (congrArg Ciw.TreeItem.level heq) (by simp [Ciw.loadingItem])
      · cases hjobs : run.jobs with
        | none => exact Or.inl rfl
        | some js =>
          rw [hjobs] at htail
          dsimp only at htail
          by_cases hc : Ciw.jobRows st i run.database_id js = [] ∧ js ≠ []
          · exact Or.inr ⟨js, rfl, hc.2,
              (jobRows_eq_nil_iff st i run.database_id js).mp hc.1⟩
          · rw [if_neg hc] at htail
            obtain ⟨jdx, job, jid, _, _, hcase⟩ :=
              mem_jobRows st i run.database_id js (Ciw.loadingItem i) htail
            rcases hcase with heq | hstep
            · exact absurd (congrArg Ciw.TreeItem.level heq) (by simp [Ciw.loadingItem])
            · obtain ⟨sx, _, heq⟩ :=
                (mem_stepRows i jdx job.steps (Ciw.loadingItem i)).mp hstep
              exact absurd (congrArg Ciw.TreeItem.level heq) (by simp [Ciw.loadingItem])
    · intro hcond
      rw [htree]
      refine List.mem_flatMap.mpr ⟨(i, run), hfil, ?_⟩
      rw [hrows hcond]
      simp
  · intro hcond
    have hinf : Ciw.runRows st i run <:+:
        (Ciw.filtered_runs_indices st).flatMap fun p => Ciw.runRows st p.1 p.2 :=
      flatMap_block_infix (fun p => Ciw.runRows st p.1 p.2)
        (Ciw.filtered_runs_indices st) (i, run) hfil
    rw [htree]
    rw [hrows hcond] at hinf
    exact hinf


/-- A run with a fetched-but-empty job list, expanded and unfiltered. -/
def c4xrun : Ciw.WorkflowRun :=
  { database_id := 1, display_title := "CI", name := "CI", head_branch := "main"
    status := .completed, conclusion := some .success, created_at := 0, updated_at := 0
    event := "push", number := 1, url := "u", jobs := some [] }

def c4xstate : Ciw.AppState :=
  { config := ⟨"r", Option.none, 20, Option.none⟩, runs := [c4xrun], tree_items := [],
    cursor := 0, expanded_runs := [1], expanded_jobs := [], filter := .all,
    overlay := .none }

/-- C4: the claim as stated fails at a fetched-but-empty job list: the run is
expanded, passes the filter, and its fetched job list yields no resolvable
job rows, yet `rebuild_tree` inserts no `Loading` placeholder (the code also
requires `!jobs.is_empty()`). -/
theorem claim_C4_cex :
    Ciw.filter_predicate c4xstate c4xrun = true ∧
    c4xstate.expanded_runs.contains c4xrun.database_id = true ∧
    c4xstate.runs = [c4xrun] ∧
    c4xrun.jobs = some [] ∧
    (Ciw.rebuild_tree c4xstate).tree_items =
      [⟨.run, 0, Option.none, Option.none, true⟩] ∧
    (∀ item ∈ (Ciw.rebuild_tree c4xstate).tree_items, item.level ≠ .loading) := by
  decide

/-- A run with unfetched jobs, expanded and unfiltered. -/
def c4wrun : Ciw.WorkflowRun :=
  { database_id := 1, display_title := "CI", name := "CI", head_branch := "main"
    status := .inProgress, conclusion := Option.none, created_at := 0, updated_at := 0
    event := "push", number := 1, url := "u", jobs := Option.none }

def c4wstate : Ciw.AppState :=
  { config := ⟨"r", Option.none, 20, Option.none⟩, runs := [c4wrun], tree_items := [],
    cursor := 0, expanded_runs := [1], expanded_jobs := [], filter := .all,
    overlay := .none }

theorem claim_C4_witness :
    Ciw.loadingItem 0 ∈ (Ciw.rebuild_tree c4wstate).tree_items ∧
    [⟨.run, 0, Option.none, Option.none, true⟩, Ciw.loadingItem 0] <:+:
      (Ciw.rebuild_tree c4wstate).tree_items :=
  ⟨(claim_C4 c4wstate 0 c4wrun rfl rfl rfl).1.mpr (Or.inl rfl),
    (claim_C4 c4wstate 0 c4wrun rfl rfl rfl).2 (Or.inl rfl)⟩

/-- A collapsed single-run state whose only tree row is the run row. -/
def c7run : Ciw.WorkflowRun :=
  { database_id := 3, display_title := "CI", name := "CI", head_branch := "main"
    status := .completed, conclusion := some .failure, created_at := 0, updated_at := 0
    event := "push", number := 1, url := "u", jobs := Option.none }

def c7state : Ciw.AppState :=
  { config := ⟨"r", Option.none, 20, Option.none⟩, runs := [c7run], tree_items := [],
    cursor := 0, expanded_runs := [], expanded_jobs := [], filter := .all,
    overlay := .none }

theorem claim_C7_witness :
    (Ciw.resolve_item (Ciw.rebuild_tree c7state)
      ⟨.run, 0, Option.none, Option.none, false⟩).isSome = true :=
  claim_C7 c7state ⟨.run, 0, Option.none, Option.none, false⟩ (by decide) (by decide)

end WGA
